import Mathlib

/-!
Verification development for the `victor` repository excerpt:
 - `proc-macros/src/lib.rs` (`derive_sfnt_table`): the SfntTable derive that
   generates fixed-offset field accessors for font-table structs;
 - `lester/src/lib.rs` and `lester/src/cairo.rs`: the two PNG/stream callback
   bridges (`with_c_callback`, `read_from_png`, `write_to_png`);
 - `victor/src/style/values.rs` and `victor/src/style/values/length.rs`:
   the two CSS `<length>` parse implementations.
-/

/-! ## Part 1: the SfntTable derive (`proc-macros/src/lib.rs`) -/

/-- A named struct field as seen by `derive_sfnt_table`: its identifier and the
identifier of the last path segment of its type
(`ty.path.segments.last().unwrap().value().ident`). -/
structure SfntField where
  name : String
  ty : String
deriving Repr, DecidableEq

/-- The width table of `derive_sfnt_table` (lines 53–58): the `match` on the
last path-segment identifier of the field type. An unknown identifier hits the
catch-all `panic!`, modelled as `none`. -/
def fieldSize : String → Option Nat
  | "u16" | "i16" | "FWord" | "UFWord" | "FontDesignUnitsPerEmFactorU16" => some 2
  | "u32" | "FixedPoint" | "Tag" => some 4
  | "LongDateTime" => some 8
  | _ => none

/-- One generated accessor method: for field `name` of type `ty`, the derive
emits `fn name(self) -> Position<ty> { self.offset(#offset) }`; `size` is the
declared width that was added to the running offset after this field. -/
structure Accessor where
  name : String
  ty : String
  offset : Nat
  size : Nat
deriving Repr, DecidableEq

/-- The field loop of `derive_sfnt_table` (lines 42–68) run from running offset
`off`: for each field it looks up the width (unknown type ⇒ `panic!`), checks
`offset % min(size, 4) == 0` (failure ⇒ `assert_eq!` panic), emits an accessor,
and does `offset += size` on the `u32` counter (overflow ⇒ arithmetic panic in
a debug build, the profile proc-macros compile under). Returns the accessor
list and the final offset, which the derive uses as `size_of` in the generated
`_assert_size_of` check. Panics are modelled as `Except.error`. -/
def processFields : List SfntField → Nat → Except String (List Accessor × Nat)
  | [], off => .ok ([], off)
  | f :: fs, off =>
    match fieldSize f.ty with
    | none => .error ("The size of " ++ f.ty ++ " is unknown")
    | some size =>
      if off % min size 4 ≠ 0 then
        .error ("Field " ++ f.name ++ " is misaligned")
      else if off + size ≥ 2 ^ 32 then
        .error "attempt to add with overflow"
      else
        match processFields fs (off + size) with
        | .error e => .error e
        | .ok (accs, total) => .ok (⟨f.name, f.ty, off, size⟩ :: accs, total)

/-- The declared width of each field, `(fieldSize f.ty).getD 0` (the default is
irrelevant whenever the derive succeeds, since then every width is known). -/
def declaredSizes (fs : List SfntField) : List Nat :=
  fs.map (fun f => (fieldSize f.ty).getD 0)

/-- `Position<T>`: a typed byte offset into a table, no runtime buffer. -/
structure Position where
  offset : Nat
deriving Repr, DecidableEq

/-- Modelled from the spec: the `Position::offset` method of the
`fonts::parsing` crate (not part of the excerpt), which the generated accessor
bodies call as `self.offset(#offset)`. Per the spec, `field()` methods "return
a new `Position<FieldType>` whose offset is `self.offset + declared_field_offset`;
they never read memory". -/
def Position.offsetBy (p : Position) (n : Nat) : Position :=
  ⟨p.offset + n⟩

/-- The body of one generated accessor method, `self.offset(#offset)`: a pure
function of the receiver position; it takes no buffer and reads no memory. -/
def generatedAccessor (fieldOffset : Nat) (self : Position) : Position :=
  self.offsetBy fieldOffset

/-- An attribute on the derive input, as `derive_sfnt_table` (lines 16–33)
classifies it: `tagStr` is `#[tag = "..."]` with a string literal (carrying the
literal's bytes, `value.as_bytes()`); `tagOther` is a `tag` name-value whose
literal is not a string (the inner `if let` fails, the loop continues);
`other` is any other attribute. -/
inductive SfntAttr where
  | tagStr (bytes : List Nat)
  | tagOther
  | other
deriving Repr, DecidableEq

/-- The attribute loop of `derive_sfnt_table` (lines 16–33): scan for the first
`tag = "..."` string literal; `assert_eq!(value.len(), 4)` panics (modelled as
`Except.error`) if its length is not 4, otherwise the generated `TAG` constant
is `Tag(*b"...")` with exactly those bytes, and `break` skips the rest. With no
such attribute, no `SfntTable` impl is generated (`none`). -/
def findTag : List SfntAttr → Except String (Option (List Nat))
  | [] => .ok none
  | .tagStr bytes :: _ =>
    if bytes.length = 4 then .ok (some bytes)
    else .error "assertion failed: value.len() == 4"
  | .tagOther :: rest => findTag rest
  | .other :: rest => findTag rest

/-- The first `tag = "..."` string-literal attribute's bytes, independent of
any length check: what the scan would accept if it accepted anything. -/
def firstTagStr : List SfntAttr → Option (List Nat)
  | [] => none
  | .tagStr bytes :: _ => some bytes
  | .tagOther :: rest => firstTagStr rest
  | .other :: rest => firstTagStr rest

/-- Structural facts about a successful run of the field loop, by induction on
the field list: the accessor list is parallel to the field list; the final
offset is the sum of declared widths; each accessor's offset is the base plus
the widths of the preceding fields, is aligned, and its field lies within the
final offset. -/
lemma processFields_spec (fs : List SfntField) :
    ∀ (off : Nat) (accs : List Accessor) (total : Nat),
      processFields fs off = .ok (accs, total) →
      accs.length = fs.length ∧
      total = off + (declaredSizes fs).sum ∧
      ∀ i f, fs[i]? = some f →
        ∃ a, accs[i]? = some a ∧
          a.name = f.name ∧ a.ty = f.ty ∧
          fieldSize f.ty = some a.size ∧
          a.offset = off + ((declaredSizes fs).take i).sum ∧
          a.offset % min a.size 4 = 0 ∧
          a.offset + a.size ≤ total := by
  induction fs with
  | nil =>
    intro off accs total h
    simp only [processFields, Except.ok.injEq, Prod.mk.injEq] at h
    obtain ⟨rfl, rfl⟩ := h
    refine ⟨rfl, by simp [declaredSizes], ?_⟩
    intro i f hf
    simp at hf
  | cons f fs ih =>
    intro off accs total h
    unfold processFields at h
    split at h
    · exact absurd h (by simp)
    · rename_i size hfs
      split at h
      · exact absurd h (by simp)
      · rename_i halign
        split at h
        · exact absurd h (by simp)
        · rename_i hover
          split at h
          · exact absurd h (by simp)
          · rename_i accs' total' heq
            simp only [Except.ok.injEq, Prod.mk.injEq] at h
            obtain ⟨rfl, rfl⟩ := h
            obtain ⟨ihlen, ihtotal, ihidx⟩ := ih (off + size) accs' total' heq
            have hds : declaredSizes (f :: fs) = size :: declaredSizes fs := by
              simp [declaredSizes, hfs]
            refine ⟨by simp [ihlen], ?_, ?_⟩
            · rw [hds, List.sum_cons]
              omega
            · intro i f' hf'
              cases i with
              | zero =>
                simp only [List.getElem?_cons_zero, Option.some.injEq] at hf'
                subst hf'
                refine ⟨⟨f.name, f.ty, off, size⟩, by simp, rfl, rfl, hfs, ?_, ?_, ?_⟩
                · simp [hds]
                · simpa using halign
                · simp only []
                  omega
              | succ i =>
                simp only [List.getElem?_cons_succ] at hf'
                obtain ⟨a, ha, hname, hty, hsize, hoff, halgn, hbound⟩ := ihidx i f' hf'
                refine ⟨a, by simpa using ha, hname, hty, hsize, ?_, halgn, hbound⟩
                rw [hds, hoff]
                simp [List.take_succ_cons, List.sum_cons]
                omega

/-- Membership form of `processFields_spec`: every accessor of a successful run
has its declared width, is aligned, and fits within the final offset. -/
lemma processFields_mem (fs : List SfntField) (accs : List Accessor) (total : Nat)
    (h : processFields fs 0 = .ok (accs, total)) (a : Accessor) (ha : a ∈ accs) :
    fieldSize a.ty = some a.size ∧ a.offset % min a.size 4 = 0 ∧
      a.offset + a.size ≤ total := by
  obtain ⟨hlen, -, hidx⟩ := processFields_spec fs 0 accs total h
  obtain ⟨i, hi, hget⟩ := List.mem_iff_getElem.mp ha
  have hi' : i < fs.length := hlen ▸ hi
  have hif : fs[i]? = some (fs.get ⟨i, hi'⟩) := by
    rw [List.get_eq_getElem]
    exact List.getElem?_eq_getElem hi'
  obtain ⟨a', ha', -, hty, hsize, -, halgn, hbound⟩ := hidx i (fs.get ⟨i, hi'⟩) hif
  have haa : a' = a := by
    rw [List.getElem?_eq_getElem hi, hget] at ha'
    exact (Option.some.inj ha').symm
  subst haa
  exact ⟨hty ▸ hsize, halgn, hbound⟩

/-- C1: for a table type accepted by the SfntTable derive, the accessor
generated for the i-th field (0-based) has body `self.offset(#offset)` where
`#offset` is the sum of the widths of the preceding fields, so on any receiver
position it returns a `Position` whose offset is `self.offset` plus that
declared field offset. The accessor is a pure function of the position — it
takes no buffer and reads no memory. -/
theorem sfnt_accessor_offset (fs : List SfntField) (accs : List Accessor)
    (total : Nat) (h : processFields fs 0 = .ok (accs, total))
    (i : Nat) (a : Accessor) (ha : accs[i]? = some a) (p : Position) :
    generatedAccessor a.offset p = ⟨p.offset + ((declaredSizes fs).take i).sum⟩ := by
  obtain ⟨hlen, -, hidx⟩ := processFields_spec fs 0 accs total h
  have hi : i < accs.length := by
    rcases List.getElem?_eq_some.mp ha with ⟨hi, -⟩
    exact hi
  have hi' : i < fs.length := hlen ▸ hi
  have hif : fs[i]? = some (fs.get ⟨i, hi'⟩) := by
    rw [List.get_eq_getElem]
    exact List.getElem?_eq_getElem hi'
  obtain ⟨a', ha', -, -, -, hoff, -, -⟩ := hidx i (fs.get ⟨i, hi'⟩) hif
  have haa : a' = a := by
    rw [ha'] at ha
    exact Option.some.inj ha
  subst haa
  show Position.mk (p.offset + a'.offset) = _
  rw [hoff]
  simp

/-- Witness for C1: the version-header-like table `{ major: u16, minor: u16,
fontRevision: FixedPoint }`; the third field's accessor adds offset 4. -/
theorem sfnt_accessor_offset_witness :
    generatedAccessor 4 ⟨100⟩ =
      ⟨100 + ((declaredSizes [⟨"major", "u16"⟩, ⟨"minor", "u16"⟩,
        ⟨"fontRevision", "FixedPoint"⟩]).take 2).sum⟩ :=
  sfnt_accessor_offset
    [⟨"major", "u16"⟩, ⟨"minor", "u16"⟩, ⟨"fontRevision", "FixedPoint"⟩]
    [⟨"major", "u16", 0, 2⟩, ⟨"minor", "u16", 2, 2⟩,
      ⟨"fontRevision", "FixedPoint", 4, 4⟩] 8
    rfl 2 ⟨"fontRevision", "FixedPoint", 4, 4⟩ rfl ⟨100⟩

/-- C2: the derive checks `offset % min(size, 4) == 0` for every field and
panics (`assert_eq!`, an irrecoverable signal at derive/construction time, not
at runtime) on violation; hence every successfully processed table type has
every field's natural alignment `min(width, 4)` dividing its offset. -/
theorem sfnt_fields_aligned (fs : List SfntField) (accs : List Accessor)
    (total : Nat) (h : processFields fs 0 = .ok (accs, total)) :
    ∀ a ∈ accs, a.offset % min a.size 4 = 0 := by
  intro a ha
  exact (processFields_mem fs accs total h a ha).2.1

/-- Witness for C2: a concrete successful derive whose accessors are all
aligned. -/
theorem sfnt_fields_aligned_witness :
    Accessor.offset ⟨"fontRevision", "FixedPoint", 4, 4⟩ %
      min (Accessor.size ⟨"fontRevision", "FixedPoint", 4, 4⟩) 4 = 0 :=
  sfnt_fields_aligned
    [⟨"major", "u16"⟩, ⟨"minor", "u16"⟩, ⟨"fontRevision", "FixedPoint"⟩]
    [⟨"major", "u16", 0, 2⟩, ⟨"minor", "u16", 2, 2⟩,
      ⟨"fontRevision", "FixedPoint", 4, 4⟩] 8 rfl
    ⟨"fontRevision", "FixedPoint", 4, 4⟩ (by simp)

/-- C3: on a successful derive, the table size asserted by the generated
`_assert_size_of` (the final running offset) is the sum of all declared field
widths, and every field satisfies `offset + size ≤ size(table)`: no generated
field position extends past the table's end. -/
theorem sfnt_fields_within_table (fs : List SfntField) (accs : List Accessor)
    (total : Nat) (h : processFields fs 0 = .ok (accs, total)) :
    total = (declaredSizes fs).sum ∧ ∀ a ∈ accs, a.offset + a.size ≤ total := by
  obtain ⟨-, htotal, -⟩ := processFields_spec fs 0 accs total h
  refine ⟨by simpa using htotal, ?_⟩
  intro a ha
  exact (processFields_mem fs accs total h a ha).2.2

/-- Witness for C3: the same concrete table; its size is 8 and each field fits. -/
theorem sfnt_fields_within_table_witness :
    (8 : Nat) = (declaredSizes [⟨"major", "u16"⟩, ⟨"minor", "u16"⟩,
        ⟨"fontRevision", "FixedPoint"⟩]).sum ∧
      ∀ a ∈ ([⟨"major", "u16", 0, 2⟩, ⟨"minor", "u16", 2, 2⟩,
        ⟨"fontRevision", "FixedPoint", 4, 4⟩] : List Accessor),
        a.offset + a.size ≤ 8 :=
  sfnt_fields_within_table
    [⟨"major", "u16"⟩, ⟨"minor", "u16"⟩, ⟨"fontRevision", "FixedPoint"⟩]
    [⟨"major", "u16", 0, 2⟩, ⟨"minor", "u16", 2, 2⟩,
      ⟨"fontRevision", "FixedPoint", 4, 4⟩] 8 rfl

/-- C4: the width table is exactly the source's `match`: the five 2-byte type
identifiers, the three 4-byte ones, the 8-byte `LongDateTime`, and nothing
else; a field whose type identifier is none of these makes the derive panic
(`Except.error`), so it never yields accessors. -/
theorem sfnt_field_widths :
    (fieldSize "u16" = some 2 ∧ fieldSize "i16" = some 2 ∧
      fieldSize "FWord" = some 2 ∧ fieldSize "UFWord" = some 2 ∧
      fieldSize "FontDesignUnitsPerEmFactorU16" = some 2) ∧
    (fieldSize "u32" = some 4 ∧ fieldSize "FixedPoint" = some 4 ∧
      fieldSize "Tag" = some 4) ∧
    fieldSize "LongDateTime" = some 8 ∧
    (∀ t : String,
      t ∉ ["u16", "i16", "FWord", "UFWord", "FontDesignUnitsPerEmFactorU16",
        "u32", "FixedPoint", "Tag", "LongDateTime"] →
      fieldSize t = none) ∧
    (∀ (fs : List SfntField) (off : Nat) (f : SfntField), f ∈ fs →
      fieldSize f.ty = none →
      ∀ accs total, processFields fs off ≠ .ok (accs, total)) := by
  refine ⟨⟨rfl, rfl, rfl, rfl, rfl⟩, ⟨rfl, rfl, rfl⟩, rfl, ?_, ?_⟩
  · intro t ht
    unfold fieldSize
    split <;> simp_all
  · intro fs
    induction fs with
    | nil =>
      intro off f hf
      simp at hf
    | cons g fs ih =>
      intro off f hf hnone accs total hok
      unfold processFields at hok
      split at hok
      · exact absurd hok (by simp)
      · rename_i size hfs
        split at hok
        · exact absurd hok (by simp)
        · split at hok
          · exact absurd hok (by simp)
          · split at hok
            · exact absurd hok (by simp)
            · rename_i accs' total' heq
              rcases List.mem_cons.mp hf with rfl | hmem
              · rw [hnone] at hfs
                exact absurd hfs (by simp)
              · exact ih (off + size) f hmem hnone accs' total' heq

/-- Witness for C4: `f32` is not a known field type; a table containing it is
rejected. -/
theorem sfnt_field_widths_witness :
    fieldSize "f32" = none ∧
      ∀ accs total,
        processFields [⟨"scaler", "f32"⟩] 0 ≠ .ok (accs, total) :=
  ⟨sfnt_field_widths.2.2.2.1 "f32" (by decide),
    fun accs total =>
      sfnt_field_widths.2.2.2.2 [⟨"scaler", "f32"⟩] 0 ⟨"scaler", "f32"⟩
        (by simp) rfl accs total⟩

/-- C5: the attribute scan accepts a `tag = "..."` value only when it is
exactly 4 bytes (`assert_eq!(value.len(), 4)` otherwise panics before any code
is generated), and an accepted tag's bytes are the literal's bytes verbatim:
the generated constant is `Tag(*b"...")` built from `value.as_bytes()` with no
normalization and no printable-text validation. -/
theorem sfnt_tag_four_bytes (attrs : List SfntAttr) :
    (∀ b, findTag attrs = .ok (some b) →
      b.length = 4 ∧ firstTagStr attrs = some b) ∧
    (∀ v, firstTagStr attrs = some v → v.length = 4 →
      findTag attrs = .ok (some v)) ∧
    (∀ v, firstTagStr attrs = some v → v.length ≠ 4 →
      ∃ e, findTag attrs = .error e) := by
  induction attrs with
  | nil => simp [findTag, firstTagStr]
  | cons a attrs ih =>
    cases a with
    | tagStr bytes =>
      refine ⟨?_, ?_, ?_⟩
      · intro b hb
        unfold findTag at hb
        by_cases hlen : bytes.length = 4
        · rw [if_pos hlen] at hb
          obtain rfl : bytes = b := by simpa using hb
          exact ⟨hlen, by simp [firstTagStr]⟩
        · rw [if_neg hlen] at hb
          exact absurd hb (by simp)
      · intro v hv hlen
        simp only [firstTagStr, Option.some.injEq] at hv
        subst hv
        simp [findTag, hlen]
      · intro v hv hlen
        simp only [firstTagStr, Option.some.injEq] at hv
        subst hv
        refine ⟨"assertion failed: value.len() == 4", ?_⟩
        simp [findTag, hlen]
    | tagOther =>
      simpa [findTag, firstTagStr] using ih
    | other =>
      simpa [findTag, firstTagStr] using ih

/-- Witness for C5: the bytes of `"head"` pass the scan verbatim. -/
theorem sfnt_tag_four_bytes_witness :
    ([104, 101, 97, 100] : List Nat).length = 4 ∧
      firstTagStr [SfntAttr.other, SfntAttr.tagStr [104, 101, 97, 100]] =
        some [104, 101, 97, 100] :=
  (sfnt_tag_four_bytes [SfntAttr.other, SfntAttr.tagStr [104, 101, 97, 100]]).1
    [104, 101, 97, 100] rfl

/-! ## Part 2: the PNG/stream callback bridges (`lester/src/lib.rs` and
`lester/src/cairo.rs`) -/

/-- What the stream would do the next time its operation
(`read_exact`/`write_all`) actually runs inside the callback body: succeed,
fail with an `io::Error` (abstracted as `ε`), or panic with a payload
(abstracted as `π`). A script entry is consumed only when the body runs. -/
inductive StreamOutcome (ε π : Type) where
  | ok
  | ioErr (e : ε)
  | panics (p : π)
deriving DecidableEq

/-- The `ClosureData` of `with_c_callback` in `lester/src/lib.rs`
(lines 71–74): the recorded stream result; `none` models `Ok(())`, `some e`
models `Err(e)`. -/
structure LibClosureData (ε : Type) where
  streamResult : Option ε
deriving DecidableEq

/-- The `ClosureData` of `with_c_callback` in `lester/src/cairo.rs`
(lines 169–173): the recorded stream result plus a caught panic payload. -/
structure CairoClosureData (ε π : Type) where
  streamResult : Option ε
  panicPayload : Option π
deriving DecidableEq

/-- The observable behavior of one callback invocation: whether the stream
operation ran (`touched`), and whether the callback returned
`CAIRO_STATUS_SUCCESS` (`retSuccess = true`) or the macro's `$ErrorConst`
(`CAIRO_STATUS_READ_ERROR` / `CAIRO_STATUS_WRITE_ERROR`,
`retSuccess = false`). -/
structure CallbackReturn where
  touched : Bool
  retSuccess : Bool
deriving DecidableEq

/-- One invocation of the `lib.rs` callback (lines 81–101): if an I/O error is
already recorded, return `$ErrorConst` without touching the stream; otherwise
run the body, and on `Err(error)` record it and return `$ErrorConst`. This
callback does not catch panics (a panicking body would unwind across the C
boundary), so its outcomes carry no panic case. -/
def libCallback (cd : LibClosureData ε) (outcome : Option ε) :
    LibClosureData ε × CallbackReturn :=
  match cd.streamResult with
  | some _ => (cd, ⟨false, false⟩)
  | none =>
    match outcome with
    | none => (cd, ⟨true, true⟩)
    | some e => (⟨some e⟩, ⟨true, false⟩)

/-- One invocation of the `cairo.rs` callback (lines 181–209): the body runs
inside `panic::catch_unwind`; a caught panic stores its payload and returns
`$ErrorConst`; the sticky-error early return and the `Err(error)` recording
are as in `lib.rs`. -/
def cairoCallback (cd : CairoClosureData ε π) (outcome : StreamOutcome ε π) :
    CairoClosureData ε π × CallbackReturn :=
  match cd.streamResult with
  | some _ => (cd, ⟨false, false⟩)
  | none =>
    match outcome with
    | .ok => (cd, ⟨true, true⟩)
    | .ioErr e => ({ cd with streamResult := some e }, ⟨true, false⟩)
    | .panics p => ({ cd with panicPayload := some p }, ⟨true, false⟩)

/-- The sequence of callback invocations the native codec makes during one
call, folded over the `lib.rs` closure data; yields the final closure data and
the per-invocation observable behavior. -/
def runLib : List (Option ε) → LibClosureData ε →
    LibClosureData ε × List CallbackReturn
  | [], cd => (cd, [])
  | o :: os, cd =>
    ((runLib os (libCallback cd o).1).1,
      (libCallback cd o).2 :: (runLib os (libCallback cd o).1).2)

/-- Same, for the `cairo.rs` closure data. -/
def runCairo : List (StreamOutcome ε π) → CairoClosureData ε π →
    CairoClosureData ε π × List CallbackReturn
  | [], cd => (cd, [])
  | o :: os, cd =>
    ((runCairo os (cairoCallback cd o).1).1,
      (cairoCallback cd o).2 :: (runCairo os (cairoCallback cd o).1).2)

/-- The result of one whole `read_from_png`/`write_to_png` call: success, the
`Io` variant (the recorded `io::Error`, verbatim), the `Cairo` variant
carrying a non-success `cairo_status_t` (statuses abstracted as `Nat` with
`0 = CAIRO_STATUS_SUCCESS`), or — `cairo.rs` only — a re-raised panic. -/
inductive BridgeResult (ε π : Type) where
  | ok
  | ioError (e : ε)
  | cairoError (status : Nat)
  | panicked (p : π)
deriving DecidableEq

/-- The `lib.rs` epilogue: after the native call returns,
`closure_data.stream_result?` (line 110) surfaces a recorded I/O error first;
only then is the native status checked (`surface.check_status()?` in
`read_from_png`, `CairoError::check(status)?` in `write_to_png`). -/
def libFinish (cd : LibClosureData ε) (status : Nat) : BridgeResult ε π :=
  match cd.streamResult with
  | some e => .ioError e
  | none => if status = 0 then .ok else .cairoError status

/-- The `cairo.rs` epilogue (lines 218–222): `panic::resume_unwind` on a
caught payload comes first, then `closure_data.stream_result?`, then the
native status check. -/
def cairoFinish (cd : CairoClosureData ε π) (status : Nat) : BridgeResult ε π :=
  match cd.panicPayload with
  | some p => .panicked p
  | none =>
    match cd.streamResult with
    | some e => .ioError e
    | none => if status = 0 then .ok else .cairoError status

/-- `CairoImageSurface::read_from_png` (`lester/src/lib.rs` lines 117–130),
the native decoder abstracted as the script of callback invocations it drives
plus the created surface's status. -/
def lib_read_from_png (script : List (Option ε)) (surfaceStatus : Nat) :
    BridgeResult ε π :=
  libFinish (runLib script ⟨none⟩).1 surfaceStatus

/-- `CairoImageSurface::write_to_png` (`lester/src/lib.rs` lines 132–145),
the native encoder abstracted as its callback script plus the status it
returns. -/
def lib_write_to_png (script : List (Option ε)) (status : Nat) :
    BridgeResult ε π :=
  libFinish (runLib script ⟨none⟩).1 status

/-- `ImageSurface::read_from_png` (`lester/src/cairo.rs` lines 233–246). -/
def cairo_read_from_png (script : List (StreamOutcome ε π))
    (surfaceStatus : Nat) : BridgeResult ε π :=
  cairoFinish (runCairo script ⟨none, none⟩).1 surfaceStatus

/-- `ImageSurface::write_to_png` (`lester/src/cairo.rs` lines 255–268). -/
def cairo_write_to_png (script : List (StreamOutcome ε π)) (status : Nat) :
    BridgeResult ε π :=
  cairoFinish (runCairo script ⟨none, none⟩).1 status

/-- The first I/O error in a script: the first error the stream itself would
produce. -/
def firstIoErr : List (StreamOutcome ε π) → Option ε
  | [] => none
  | .ioErr e :: _ => some e
  | .ok :: rest => firstIoErr rest
  | .panics _ :: rest => firstIoErr rest

/-- Same, for panic-free (`lib.rs`) scripts. -/
def firstLibErr : List (Option ε) → Option ε
  | [] => none
  | some e :: _ => some e
  | none :: rest => firstLibErr rest

/-- A panic-free script, viewed as a `cairo.rs` script. -/
def toStreamOutcome : Option ε → StreamOutcome ε π
  | none => .ok
  | some e => .ioErr e

/-- Once an I/O error is recorded, every further `cairo.rs` callback
invocation leaves the closure data unchanged, does not touch the stream, and
returns `$ErrorConst`. -/
lemma runCairo_stuck (script : List (StreamOutcome ε π)) :
    ∀ cd : CairoClosureData ε π, cd.streamResult.isSome →
      runCairo script cd = (cd, script.map fun _ => ⟨false, false⟩) := by
  induction script with
  | nil =>
    intro cd _
    simp [runCairo]
  | cons o os ih =>
    intro cd h
    obtain ⟨e, he⟩ := Option.isSome_iff_exists.mp h
    have hstep : cairoCallback cd o = (cd, ⟨false, false⟩) := by
      unfold cairoCallback
      rw [he]
    rw [runCairo, hstep]
    simp [ih cd h]

/-- Same for the `lib.rs` callback. -/
lemma runLib_stuck (script : List (Option ε)) :
    ∀ cd : LibClosureData ε, cd.streamResult.isSome →
      runLib script cd = (cd, script.map fun _ => ⟨false, false⟩) := by
  induction script with
  | nil =>
    intro cd _
    simp [runLib]
  | cons o os ih =>
    intro cd h
    obtain ⟨e, he⟩ := Option.isSome_iff_exists.mp h
    have hstep : libCallback cd o = (cd, ⟨false, false⟩) := by
      unfold libCallback
      rw [he]
    rw [runLib, hstep]
    simp [ih cd h]

/-- The recorded stream result of a whole `cairo.rs` run is the first I/O
error of the script, whatever panics occur around it. -/
lemma runCairo_streamResult (script : List (StreamOutcome ε π)) :
    ∀ pp : Option π,
      (runCairo script ⟨none, pp⟩).1.streamResult = firstIoErr script := by
  induction script with
  | nil =>
    intro pp
    simp [runCairo, firstIoErr]
  | cons o os ih =>
    intro pp
    cases o with
    | ok =>
      rw [runCairo]
      have hstep : cairoCallback (⟨none, pp⟩ : CairoClosureData ε π) .ok =
          (⟨none, pp⟩, ⟨true, true⟩) := rfl
      rw [hstep, firstIoErr]
      exact ih pp
    | ioErr e =>
      rw [runCairo]
      have hstep : cairoCallback (⟨none, pp⟩ : CairoClosureData ε π) (.ioErr e) =
          (⟨some e, pp⟩, ⟨true, false⟩) := rfl
      rw [hstep, runCairo_stuck os ⟨some e, pp⟩ rfl]
      simp [firstIoErr]
    | panics p =>
      rw [runCairo]
      have hstep : cairoCallback (⟨none, pp⟩ : CairoClosureData ε π) (.panics p) =
          (⟨none, some p⟩, ⟨true, false⟩) := rfl
      rw [hstep, firstIoErr]
      exact ih (some p)

/-- The recorded stream result of a whole `lib.rs` run is the first I/O error
of the script. -/
lemma runLib_streamResult (script : List (Option ε)) :
    (runLib script (⟨none⟩ : LibClosureData ε)).1.streamResult =
      firstLibErr script := by
  induction script with
  | nil => simp [runLib, firstLibErr]
  | cons o os ih =>
    cases o with
    | none =>
      rw [runLib]
      have hstep : libCallback (⟨none⟩ : LibClosureData ε) none =
          (⟨none⟩, ⟨true, true⟩) := rfl
      rw [hstep, firstLibErr]
      exact ih
    | some e =>
      rw [runLib]
      have hstep : libCallback (⟨none⟩ : LibClosureData ε) (some e) =
          (⟨some e⟩, ⟨true, false⟩) := rfl
      rw [hstep, runLib_stuck os ⟨some e⟩ rfl]
      simp [firstLibErr]

/-- Appending scripts composes the runs (used for the stickiness claim). -/
lemma runCairo_append (s₁ s₂ : List (StreamOutcome ε π)) :
    ∀ cd, runCairo (s₁ ++ s₂) cd =
      ((runCairo s₂ (runCairo s₁ cd).1).1,
        (runCairo s₁ cd).2 ++ (runCairo s₂ (runCairo s₁ cd).1).2) := by
  induction s₁ with
  | nil =>
    intro cd
    simp [runCairo]
  | cons o os ih =>
    intro cd
    simp [runCairo, ih]

/-- Appending scripts composes the `lib.rs` runs. -/
lemma runLib_append (s₁ s₂ : List (Option ε)) :
    ∀ cd, runLib (s₁ ++ s₂) cd =
      ((runLib s₂ (runLib s₁ cd).1).1,
        (runLib s₁ cd).2 ++ (runLib s₂ (runLib s₁ cd).1).2) := by
  induction s₁ with
  | nil =>
    intro cd
    simp [runLib]
  | cons o os ih =>
    intro cd
    simp [runLib, ih]

/-- On a panic-free script, the `cairo.rs` run simulates the `lib.rs` run
exactly: same recorded stream result, no panic payload, and the same
per-invocation behavior (touched stream, returned status). -/
lemma runCairo_sim (script : List (Option ε)) :
    ∀ r : Option ε,
      runCairo (script.map toStreamOutcome) (⟨r, none⟩ : CairoClosureData ε π) =
        (⟨(runLib script ⟨r⟩).1.streamResult, none⟩, (runLib script ⟨r⟩).2) := by
  induction script with
  | nil =>
    intro r
    simp [runCairo, runLib]
  | cons o os ih =>
    intro r
    cases r with
    | none =>
      cases o with
      | none =>
        rw [List.map_cons, runCairo, runLib]
        have h2 : cairoCallback (⟨none, none⟩ : CairoClosureData ε π)
            (toStreamOutcome none) = (⟨none, none⟩, ⟨true, true⟩) := rfl
        have h3 : libCallback (⟨none⟩ : LibClosureData ε) none =
            (⟨none⟩, ⟨true, true⟩) := rfl
        rw [h2, h3]
        simp [ih none]
      | some e =>
        rw [List.map_cons, runCairo, runLib]
        have h2 : cairoCallback (⟨none, none⟩ : CairoClosureData ε π)
            (toStreamOutcome (some e)) = (⟨some e, none⟩, ⟨true, false⟩) := rfl
        have h3 : libCallback (⟨none⟩ : LibClosureData ε) (some e) =
            (⟨some e⟩, ⟨true, false⟩) := rfl
        rw [h2, h3]
        simp [ih (some e)]
    | some e0 =>
      rw [List.map_cons, runCairo, runLib]
      have h2 : cairoCallback (⟨some e0, none⟩ : CairoClosureData ε π)
          (toStreamOutcome o) = (⟨some e0, none⟩, ⟨false, false⟩) := rfl
      have h3 : libCallback (⟨some e0⟩ : LibClosureData ε) o =
          (⟨some e0⟩, ⟨false, false⟩) := rfl
      rw [h2, h3]
      simp [ih (some e0)]

/-- Case analysis of the `lib.rs` epilogue. -/
lemma libFinish_cases (cd : LibClosureData ε) (status : Nat) :
    (∀ e, cd.streamResult = some e →
      (libFinish cd status : BridgeResult ε π) = .ioError e) ∧
    (cd.streamResult = none → status ≠ 0 →
      (libFinish cd status : BridgeResult ε π) = .cairoError status) ∧
    (cd.streamResult = none → status = 0 →
      (libFinish cd status : BridgeResult ε π) = .ok) := by
  rcases cd with ⟨sr⟩
  cases sr with
  | none =>
    refine ⟨?_, ?_, ?_⟩
    · intro e he
      exact absurd he (by simp)
    · intro _ hs
      unfold libFinish
      simp [hs]
    · intro _ hs
      unfold libFinish
      simp [hs]
  | some a =>
    refine ⟨?_, ?_, ?_⟩
    · intro e he
      obtain rfl : a = e := by simpa using he
      rfl
    · intro h
      exact absurd h (by simp)
    · intro h
      exact absurd h (by simp)

/-- Case analysis of the `cairo.rs` epilogue when no panic was caught. -/
lemma cairoFinish_cases (cd : CairoClosureData ε π) (status : Nat)
    (hp : cd.panicPayload = none) :
    (∀ e, cd.streamResult = some e →
      cairoFinish cd status = .ioError e) ∧
    (cd.streamResult = none → status ≠ 0 →
      cairoFinish cd status = .cairoError status) ∧
    (cd.streamResult = none → status = 0 →
      cairoFinish cd status = .ok) := by
  rcases cd with ⟨sr, pp⟩
  obtain rfl : pp = none := by simpa using hp
  cases sr with
  | none =>
    refine ⟨?_, ?_, ?_⟩
    · intro e he
      exact absurd he (by simp)
    · intro _ hs
      unfold cairoFinish
      simp [hs]
    · intro _ hs
      unfold cairoFinish
      simp [hs]
  | some a =>
    refine ⟨?_, ?_, ?_⟩
    · intro e he
      obtain rfl : a = e := by simpa using he
      rfl
    · intro h
      exact absurd h (by simp)
    · intro h
      exact absurd h (by simp)

/-- C6: in the `cairo.rs` bridge, if the run of the native call recorded a
caught panic payload, then both `read_from_png` and `write_to_png` re-raise
that panic after the native call returns (`panic::resume_unwind` precedes
`closure_data.stream_result?`), whatever I/O error was also recorded and
whatever the native status is: the I/O error is not returned. -/
theorem cairo_panic_takes_precedence (script : List (StreamOutcome ε π))
    (status : Nat) (p : π)
    (h : (runCairo script ⟨none, none⟩).1.panicPayload = some p) :
    cairo_read_from_png script status = .panicked p ∧
      cairo_write_to_png script status = .panicked p := by
  constructor
  · unfold cairo_read_from_png cairoFinish
    rw [h]
  · unfold cairo_write_to_png cairoFinish
    rw [h]

/-- Witness for C6: a run that records both a panic payload (7) and an I/O
error (3) re-raises the panic and drops the I/O error. -/
theorem cairo_panic_takes_precedence_witness :
    (runCairo [StreamOutcome.panics 7, StreamOutcome.ioErr (3 : Nat)]
        (⟨none, none⟩ : CairoClosureData Nat Nat)).1.panicPayload = some 7 ∧
    (runCairo [StreamOutcome.panics 7, StreamOutcome.ioErr (3 : Nat)]
        (⟨none, none⟩ : CairoClosureData Nat Nat)).1.streamResult = some 3 ∧
    cairo_read_from_png [StreamOutcome.panics 7, StreamOutcome.ioErr (3 : Nat)]
        5 = BridgeResult.panicked 7 ∧
    cairo_write_to_png [StreamOutcome.panics 7, StreamOutcome.ioErr (3 : Nat)]
        5 = BridgeResult.panicked 7 := by
  refine ⟨rfl, rfl, ?_, ?_⟩
  · exact (cairo_panic_takes_precedence
      [StreamOutcome.panics 7, StreamOutcome.ioErr (3 : Nat)] 5 7 rfl).1
  · exact (cairo_panic_takes_precedence
      [StreamOutcome.panics 7, StreamOutcome.ioErr (3 : Nat)] 5 7 rfl).2

/-- C7: both bridges surface two distinct failure channels. If the stream's
`read_exact`/`write_all` failed (first failure `e`), the call returns
`Error::Io(e)` with that error verbatim — the `stream_result?` check runs
before the native status check; otherwise a non-success native status yields
`Error::Cairo(status)`; otherwise the call succeeds. For the `cairo.rs`
variants this describes every call in which no panic payload was caught (a
caught panic is re-raised instead, see the precedence theorem). -/
theorem png_failure_channels (libScript : List (Option ε))
    (script : List (StreamOutcome ε π)) (status : Nat) :
    ((∀ e, firstLibErr libScript = some e →
      (lib_read_from_png libScript status : BridgeResult ε π) = .ioError e ∧
      (lib_write_to_png libScript status : BridgeResult ε π) = .ioError e) ∧
    (firstLibErr libScript = none → status ≠ 0 →
      (lib_read_from_png libScript status : BridgeResult ε π)
          = .cairoError status ∧
      (lib_write_to_png libScript status : BridgeResult ε π)
          = .cairoError status) ∧
    (firstLibErr libScript = none → status = 0 →
      (lib_read_from_png libScript status : BridgeResult ε π) = .ok ∧
      (lib_write_to_png libScript status : BridgeResult ε π) = .ok)) ∧
    ((runCairo script ⟨none, none⟩).1.panicPayload = none →
      (∀ e, firstIoErr script = some e →
        cairo_read_from_png script status = .ioError e ∧
        cairo_write_to_png script status = .ioError e) ∧
      (firstIoErr script = none → status ≠ 0 →
        cairo_read_from_png script status = .cairoError status ∧
        cairo_write_to_png script status = .cairoError status) ∧
      (firstIoErr script = none → status = 0 →
        cairo_read_from_png script status = .ok ∧
        cairo_write_to_png script status = .ok)) := by
  have hsrL := runLib_streamResult libScript
  have hL := libFinish_cases (π := π) (runLib libScript ⟨none⟩).1 status
  constructor
  · refine ⟨?_, ?_, ?_⟩
    · intro e he
      exact ⟨hL.1 e (hsrL.trans he), hL.1 e (hsrL.trans he)⟩
    · intro hn hs
      exact ⟨hL.2.1 (hsrL.trans hn) hs, hL.2.1 (hsrL.trans hn) hs⟩
    · intro hn hs
      exact ⟨hL.2.2 (hsrL.trans hn) hs, hL.2.2 (hsrL.trans hn) hs⟩
  · intro hp
    have hsrC := runCairo_streamResult script none
    have hC := cairoFinish_cases (runCairo script ⟨none, none⟩).1 status hp
    refine ⟨?_, ?_, ?_⟩
    · intro e he
      exact ⟨hC.1 e (hsrC.trans he), hC.1 e (hsrC.trans he)⟩
    · intro hn hs
      exact ⟨hC.2.1 (hsrC.trans hn) hs, hC.2.1 (hsrC.trans hn) hs⟩
    · intro hn hs
      exact ⟨hC.2.2 (hsrC.trans hn) hs, hC.2.2 (hsrC.trans hn) hs⟩

/-- Witness for C7: a first stream failure (3) comes back as `Io(3)` even with
a failing native status (9), and a clean stream with status 9 comes back as
`Cairo(9)`. -/
theorem png_failure_channels_witness :
    (lib_read_from_png ([none, some 3] : List (Option Nat)) 9
        : BridgeResult Nat Nat) = .ioError 3 ∧
    (lib_write_to_png ([none, some 3] : List (Option Nat)) 9
        : BridgeResult Nat Nat) = .ioError 3 ∧
    cairo_write_to_png ([StreamOutcome.ok] : List (StreamOutcome Nat Nat)) 9
        = .cairoError 9 ∧
    cairo_read_from_png ([StreamOutcome.ok] : List (StreamOutcome Nat Nat)) 0
        = .ok := by
  have h9 := png_failure_channels ([none, some 3] : List (Option Nat))
    ([StreamOutcome.ok] : List (StreamOutcome Nat Nat)) 9
  have h0 := png_failure_channels ([none, some 3] : List (Option Nat))
    ([StreamOutcome.ok] : List (StreamOutcome Nat Nat)) 0
  exact ⟨(h9.1.1 3 rfl).1, (h9.1.1 3 rfl).2,
    ((h9.2 rfl).2.1 rfl (by decide)).2, ((h0.2 rfl).2.2 rfl rfl).1⟩

/-- C8: on any execution whose callback bodies do not panic, the two
near-duplicate bridges are equivalent: driven by the same stream behavior,
they make the same sequence of callback invocations with the same observable
behavior (same invocations touch the stream, same statuses returned to the
native codec), record the same stream result, the `cairo.rs` one catches no
fault, and with the same native status both whole calls return the same
result. -/
theorem bridges_equivalent (script : List (Option ε)) (status : Nat) :
    runCairo (script.map toStreamOutcome) (⟨none, none⟩ : CairoClosureData ε π) =
      (⟨(runLib script ⟨none⟩).1.streamResult, none⟩, (runLib script ⟨none⟩).2) ∧
    (cairo_read_from_png (script.map toStreamOutcome) status
        : BridgeResult ε π) = lib_read_from_png script status ∧
    (cairo_write_to_png (script.map toStreamOutcome) status
        : BridgeResult ε π) = lib_write_to_png script status := by
  have hsim := runCairo_sim (π := π) script none
  refine ⟨hsim, ?_, ?_⟩
  · unfold cairo_read_from_png lib_read_from_png
    rw [hsim]
    show cairoFinish ⟨(runLib script ⟨none⟩).1.streamResult, none⟩ status = _
    cases hsr : (runLib script ⟨none⟩).1.streamResult with
    | none =>
      unfold cairoFinish libFinish
      rw [hsr]
    | some e =>
      unfold cairoFinish libFinish
      rw [hsr]
  · unfold cairo_write_to_png lib_write_to_png
    rw [hsim]
    show cairoFinish ⟨(runLib script ⟨none⟩).1.streamResult, none⟩ status = _
    cases hsr : (runLib script ⟨none⟩).1.streamResult with
    | none =>
      unfold cairoFinish libFinish
      rw [hsr]
    | some e =>
      unfold cairoFinish libFinish
      rw [hsr]

/-- C9: stream errors are sticky in both bridges. Once a prefix of the run
has recorded an I/O error, appending further invocations leaves the closure
data unchanged and each appended invocation returns `$ErrorConst` without
touching the stream; the recorded error of a whole run is the first error the
stream produced, and (absent a caught panic) that first error is what the
call returns. -/
theorem stream_errors_sticky (pre post script : List (StreamOutcome ε π))
    (libPre libPost libScript : List (Option ε)) (e : ε) (status : Nat) :
    ((runCairo pre (⟨none, none⟩ : CairoClosureData ε π)).1.streamResult
        = some e →
      runCairo (pre ++ post) ⟨none, none⟩ =
        ((runCairo pre ⟨none, none⟩).1,
          (runCairo pre ⟨none, none⟩).2 ++ post.map fun _ => ⟨false, false⟩)) ∧
    ((runLib libPre (⟨none⟩ : LibClosureData ε)).1.streamResult = some e →
      runLib (libPre ++ libPost) ⟨none⟩ =
        ((runLib libPre ⟨none⟩).1,
          (runLib libPre ⟨none⟩).2 ++ libPost.map fun _ => ⟨false, false⟩)) ∧
    (runCairo script (⟨none, none⟩ : CairoClosureData ε π)).1.streamResult
        = firstIoErr script ∧
    (runLib libScript (⟨none⟩ : LibClosureData ε)).1.streamResult
        = firstLibErr libScript ∧
    ((runCairo script ⟨none, none⟩).1.panicPayload = none →
      firstIoErr script = some e →
      cairo_read_from_png script status = .ioError e ∧
      cairo_write_to_png script status = .ioError e) ∧
    (firstLibErr libScript = some e →
      (lib_read_from_png libScript status : BridgeResult ε π) = .ioError e ∧
      (lib_write_to_png libScript status : BridgeResult ε π) = .ioError e) := by
  refine ⟨?_, ?_, runCairo_streamResult script none, runLib_streamResult libScript, ?_, ?_⟩
  · intro h
    rw [runCairo_append]
    rw [runCairo_stuck post (runCairo pre ⟨none, none⟩).1
      (Option.isSome_iff_exists.mpr ⟨e, h⟩)]
  · intro h
    rw [runLib_append]
    rw [runLib_stuck libPost (runLib libPre ⟨none⟩).1
      (Option.isSome_iff_exists.mpr ⟨e, h⟩)]
  · intro hp hfe
    have hC := cairoFinish_cases (runCairo script ⟨none, none⟩).1 status hp
    have hsr := (runCairo_streamResult script none).trans hfe
    exact ⟨hC.1 e hsr, hC.1 e hsr⟩
  · intro hfe
    have hL := libFinish_cases (π := π) (runLib libScript ⟨none⟩).1 status
    have hsr := (runLib_streamResult libScript).trans hfe
    exact ⟨hL.1 e hsr, hL.1 e hsr⟩

/-- Witness for C9: after the error 3 at the first invocation, the appended
invocation is not run against the stream; the whole call returns `Io(3)`. -/
theorem stream_errors_sticky_witness :
    runCairo ([StreamOutcome.ioErr 3, StreamOutcome.ok]
        : List (StreamOutcome Nat Nat)) ⟨none, none⟩ =
      ((runCairo ([StreamOutcome.ioErr 3] : List (StreamOutcome Nat Nat))
          ⟨none, none⟩).1,
        (runCairo ([StreamOutcome.ioErr 3] : List (StreamOutcome Nat Nat))
          ⟨none, none⟩).2 ++ [⟨false, false⟩]) ∧
    (runCairo ([StreamOutcome.ok, StreamOutcome.ioErr 3, StreamOutcome.ioErr 4]
        : List (StreamOutcome Nat Nat)) ⟨none, none⟩).1.streamResult = some 3 ∧
    cairo_write_to_png ([StreamOutcome.ok, StreamOutcome.ioErr 3,
        StreamOutcome.ioErr 4] : List (StreamOutcome Nat Nat)) 0
      = .ioError 3 ∧
    (lib_write_to_png ([some 3, none] : List (Option Nat)) 0
        : BridgeResult Nat Nat) = .ioError 3 := by
  have h := stream_errors_sticky
    ([StreamOutcome.ioErr 3] : List (StreamOutcome Nat Nat)) [StreamOutcome.ok]
    [StreamOutcome.ok, StreamOutcome.ioErr 3, StreamOutcome.ioErr 4]
    [some 3] [none] [some 3, none] 3 0
  exact ⟨h.1 rfl, h.2.2.1, (h.2.2.2.2.1 rfl rfl).2, (h.2.2.2.2.2 rfl).2⟩

/-! ## Part 3: the two CSS `<length>` parse implementations
(`victor/src/style/values.rs` and `victor/src/style/values/length.rs`) -/

/-- A `cssparser` token as far as `Length::parse` inspects it: a `Dimension`
token carries its numeric `value` (abstracted as `α` — the code moves it
unchanged into the result, performing no arithmetic on it) and its `unit`
string; every other token kind is `other`. -/
inductive CssToken (α : Type) where
  | dimension (value : α) (unit : List Char)
  | other
deriving DecidableEq

/-- `PropertyParseError`: the `?` on `parser.next()` converts the tokenizer's
`BasicParseError` (abstracted as `β`), and the fallthrough builds
`parser.new_custom_error(PropertyParseErrorKind::Other)`. -/
inductive PropertyParseError (β : Type) where
  | fromBasic (e : β)
  | custom
deriving DecidableEq

/-- The `Length` value type of both files: a single `Px` variant wrapping the
euclid length, whose `new` stores the numeric value unchanged. -/
inductive CssLength (α : Type) where
  | Px (v : α)
deriving DecidableEq

/-- ASCII lowercasing of one character, as in Rust's
`to_ascii_lowercase`. -/
def asciiLower (c : Char) : Char :=
  if 'A' ≤ c ∧ c ≤ 'Z' then Char.ofNat (c.toNat + 32) else c

/-- The unit comparison done by `match_ignore_ascii_case!`:
ASCII-case-insensitive equality. -/
def eqIgnoreAsciiCase (a b : List Char) : Bool :=
  a.map asciiLower == b.map asciiLower

/-- `Length::parse` from `victor/src/style/values.rs` (lines 10–21):
`parser.next()?` propagates a tokenizer error; a `Dimension` token whose unit
is `px` ASCII-case-insensitively returns
`Ok(Length::Px(EuclidLength::new(value)))`; any other token falls through to
`Err(parser.new_custom_error(PropertyParseErrorKind::Other))`. The parser is
abstracted by the result of its `next()` call. -/
def Length_parse_values (next : Except β (CssToken α)) :
    Except (PropertyParseError β) (CssLength α) :=
  match next with
  | .error e => .error (.fromBasic e)
  | .ok (.dimension value unit) =>
    if eqIgnoreAsciiCase unit ['p', 'x'] then .ok (.Px value)
    else .error .custom
  | .ok .other => .error .custom

/-- `<Length as Parse>::parse` from `victor/src/style/values/length.rs`
(lines 14–27): the same match, with `PxLength::new` (a type alias of the same
euclid constructor) in place of `EuclidLength::new`. -/
def Length_parse_length (next : Except β (CssToken α)) :
    Except (PropertyParseError β) (CssLength α) :=
  match next with
  | .error e => .error (.fromBasic e)
  | .ok (.dimension value unit) =>
    if eqIgnoreAsciiCase unit ['p', 'x'] then .ok (.Px value)
    else .error .custom
  | .ok .other => .error .custom

/-- C10: the two `Length` parse implementations agree on every input, and
each succeeds exactly when the next token is a `Dimension` whose unit is
`px` ASCII-case-insensitively, returning `Px` of that dimension's value
unchanged; on any other token — or on a tokenizer error — it returns an
error and no value. -/
theorem css_length_parsers_equivalent :
    (∀ next : Except β (CssToken α),
      Length_parse_values next = Length_parse_length next) ∧
    (∀ (next : Except β (CssToken α)) (l : CssLength α),
      Length_parse_values next = .ok l ↔
        ∃ v u, next = .ok (.dimension v u) ∧
          eqIgnoreAsciiCase u ['p', 'x'] = true ∧ l = .Px v) := by
  constructor
  · intro next
    rcases next with e | t
    · rfl
    · rcases t with ⟨v, u⟩ | _ <;> rfl
  · intro next l
    constructor
    · intro h
      rcases next with e | t
      · exact absurd h (by simp [Length_parse_values])
      · rcases t with ⟨v, u⟩ | _
        · simp only [Length_parse_values] at h
          by_cases hu : eqIgnoreAsciiCase u ['p', 'x'] = true
          · refine ⟨v, u, rfl, hu, ?_⟩
            rw [if_pos hu] at h
            exact (Except.ok.inj h).symm
          · rw [if_neg hu] at h
            exact absurd h (by simp)
        · exact absurd h (by simp [Length_parse_values])
    · rintro ⟨v, u, rfl, hu, rfl⟩
      simp only [Length_parse_values]
      rw [if_pos hu]

/-- Witness for C10: the dimension `12PX` parses to `Px 12` in both
implementations; a bare `other` token does not. -/
theorem css_length_parsers_equivalent_witness :
    Length_parse_values (.ok (.dimension (12 : Nat) ['P', 'X']))
        = (.ok (.Px 12) : Except (PropertyParseError Nat) (CssLength Nat)) ∧
    Length_parse_length (.ok (.dimension (12 : Nat) ['P', 'X']))
        = (.ok (.Px 12) : Except (PropertyParseError Nat) (CssLength Nat)) ∧
    ∀ l : CssLength Nat,
      Length_parse_values (.ok (.other) : Except Nat (CssToken Nat)) ≠ .ok l := by
  have h := css_length_parsers_equivalent (β := Nat) (α := Nat)
  refine ⟨?_, ?_, ?_⟩
  · exact (h.2 (.ok (.dimension 12 ['P', 'X'])) (.Px 12)).mpr
      ⟨12, ['P', 'X'], rfl, by decide, rfl⟩
  · rw [← h.1]
    exact (h.2 (.ok (.dimension 12 ['P', 'X'])) (.Px 12)).mpr
      ⟨12, ['P', 'X'], rfl, by decide, rfl⟩
  · intro l hl
    obtain ⟨v, u, huk, -, -⟩ := (h.2 _ l).mp hl
    exact absurd huk (by simp)
